import Mathlib

/-!
Verification of the dependency-parse-to-digraph conversion implemented in
`src/deps_to_graph.py`.  The pure core of that script is embedded here:

* the annotated-document (ADM) data model that the script reads
  (`adm['attributes']['token']['items']`, `adm['attributes']['dependency']['items']`),
* `escape`, `extent`, `tokens`, `dependencies`, and `deps_to_graph`.

Dict accesses that can fail in Python (missing keys) are modelled with
`Option`; the sorted views produced by Python's stable `sorted` builtin are
modelled with `List.insertionSort`, which is likewise a stable sort.
-/

set_option maxRecDepth 100000

namespace DepsToGraph

/-- A token item of the ADM: `{"text": ..., "startOffset": ..., "endOffset": ...}`.
`text` is accessed with `token['text']` (required), while the offsets are read
with `obj.get(..., -1)` and may therefore be absent. -/
structure Token where
  text : String
  startOffset : Option Int
  endOffset : Option Int
deriving DecidableEq

/-- A dependency item of the ADM:
`{"relationship": ..., "governorTokenIndex": ..., "dependencyTokenIndex": ...}`.
All three fields are accessed directly (via `itemgetter` and `EDGE.format`). -/
structure DependencyEdge where
  relationship : String
  governorTokenIndex : Int
  dependencyTokenIndex : Int
deriving DecidableEq

/-- The `token` attribute container: `{"items": [...]}`. -/
structure TokenAttribute where
  items : Option (List Token)
deriving DecidableEq

/-- The `dependency` attribute container: `{"items": [...]}`. -/
structure DependencyAttribute where
  items : Option (List DependencyEdge)
deriving DecidableEq

/-- The `attributes` value of an ADM, holding the two containers used by the
script.  Either container may be missing. -/
structure Attributes where
  token : Option TokenAttribute
  dependency : Option DependencyAttribute
deriving DecidableEq

/-- An annotated document (ADM), a dict which may or may not carry the
`attributes` key. -/
structure AnnotatedDocument where
  attributes : Option Attributes
deriving DecidableEq

/-- `ROOT = 'root'` (line 31 of the source). -/
def ROOT : String := "root"

/-- `STYLE` (lines 36-39): the fixed style preamble. -/
def STYLE : String :=
  "\nedge [dir=\"forward\", arrowhead=\"open\", arrowsize=0.5]\nnode [shape=\"box\", height=0]\n"

/-- `NODE.format(index=..., token=...)` (line 32): one node statement,
newline-terminated. -/
def NODE (index : Int) (token : String) : String :=
  toString index ++ " [label=\"" ++ token ++ "\"]\n"

/-- `EDGE.format(**edge)` (line 34): one edge statement, with no trailing
newline (the caller appends it). -/
def EDGE (e : DependencyEdge) : String :=
  toString e.governorTokenIndex ++ " -> " ++ toString e.dependencyTokenIndex
    ++ " [label=\"" ++ e.relationship ++ "\"]"

/-- `'{} [label="S{}"]'.format(sentence_index, -sentence_index)` (line 204):
the synthetic sentence-root node statement.  Note: no trailing newline. -/
def synthNode (sentence_index : Int) : String :=
  toString sentence_index ++ " [label=\"S" ++ toString (-sentence_index) ++ "\"]"

/-- The characters matched by the pattern `([\[\]()"\\])` in `escape`. -/
def specialChar (c : Char) : Bool :=
  c == '[' || c == ']' || c == '(' || c == ')' || c == '\"' || c == '\\'

/-- Character-level embedding of `pattern.sub(r'\\\1', token)`: the regex
engine scans left to right, replaces each (single-character) match by a
backslash followed by the matched character, and never rescans replacement
text. -/
def escapeChars : List Char → List Char
  | [] => []
  | c :: rest => if specialChar c then '\\' :: c :: escapeChars rest else c :: escapeChars rest

/-- `escape` (lines 174-177). -/
def escape (token : String) : String :=
  ⟨escapeChars token.data⟩

/-- `extent` (lines 179-181): `obj.get('startOffset', -1), obj.get('endOffset', -1)`. -/
def extent (t : Token) : Int × Int :=
  (t.startOffset.getD (-1), t.endOffset.getD (-1))

/-- Lexicographic comparison of key pairs, as used by Python's `sorted`
on 2-tuples. -/
def lexLE (p q : Int × Int) : Prop :=
  p.1 < q.1 ∨ (p.1 = q.1 ∧ p.2 ≤ q.2)

instance : DecidableRel lexLE := fun p q => by unfold lexLE; infer_instance

/-- The order on tokens induced by `key=extent`. -/
def tokenLE (a b : Token) : Prop := lexLE (extent a) (extent b)

instance : DecidableRel tokenLE := fun a b => by unfold tokenLE; infer_instance

/-- The key of a dependency edge: `itemgetter('governorTokenIndex', 'dependencyTokenIndex')`. -/
def depKey (e : DependencyEdge) : Int × Int :=
  (e.governorTokenIndex, e.dependencyTokenIndex)

/-- The order on dependency edges induced by that key. -/
def depLE (a b : DependencyEdge) : Prop := lexLE (depKey a) (depKey b)

instance : DecidableRel depLE := fun a b => by unfold depLE; infer_instance

instance : IsTotal Token tokenLE := ⟨fun a b => by unfold tokenLE lexLE; omega⟩

instance : IsTrans Token tokenLE :=
  ⟨fun a b c h1 h2 => by unfold tokenLE lexLE at h1 h2 ⊢; omega⟩

instance : IsTotal DependencyEdge depLE := ⟨fun a b => by unfold depLE lexLE; omega⟩

instance : IsTrans DependencyEdge depLE :=
  ⟨fun a b c h1 h2 => by unfold depLE lexLE at h1 h2 ⊢; omega⟩

/-- `sorted(..., key=extent)`: Python's `sorted` is a stable sort by key;
`List.insertionSort` is a stable sort for the same order. -/
def sortTokens (ts : List Token) : List Token :=
  List.insertionSort tokenLE ts

/-- `sorted(..., key=itemgetter('governorTokenIndex', 'dependencyTokenIndex'))`. -/
def sortDependencies (ds : List DependencyEdge) : List DependencyEdge :=
  List.insertionSort depLE ds

/-- `tokens` (lines 183-185): `sorted(adm['attributes']['token']['items'], key=extent)`.
A missing key raises in Python, modelled by `none`. -/
def tokens (adm : AnnotatedDocument) : Option (List Token) := do
  let attrs ← adm.attributes
  let tok ← attrs.token
  let items ← tok.items
  pure (sortTokens items)

/-- `dependencies` (lines 187-192). -/
def dependencies (adm : AnnotatedDocument) : Option (List DependencyEdge) := do
  let attrs ← adm.attributes
  let dep ← attrs.dependency
  let items ← dep.items
  pure (sortDependencies items)

/-- The first loop of `deps_to_graph` (lines 198-201): one `NODE` per token in
sorted order, enumerated from `i`. -/
def tokenNodes (index_labels : Bool) : Nat → List Token → String
  | _, [] => ""
  | i, t :: rest =>
    let index_label := if index_labels then "(" ++ toString i ++ ") " else ""
    NODE i (index_label ++ escape t.text) ++ tokenNodes index_labels (i + 1) rest

/-- The second loop of `deps_to_graph` (lines 202-207), threading the
`sentence_index` counter.  For a root edge the synthetic node statement is
appended (without newline), the edge is emitted with its governor index
replaced by `sentence_index`, and the counter is decremented. -/
def edgeLines : Int → List DependencyEdge → String
  | _, [] => ""
  | si, e :: rest =>
    if e.relationship == ROOT then
      synthNode si ++ (EDGE { e with governorTokenIndex := si } ++ "\n") ++ edgeLines (si - 1) rest
    else
      (EDGE e ++ "\n") ++ edgeLines si rest

/-- `deps_to_graph` (lines 194-209). -/
def deps_to_graph (adm : AnnotatedDocument) (index_labels : Bool := false) : Option String := do
  let ts ← tokens adm
  let ds ← dependencies adm
  pure ("digraph G\x7b" ++ STYLE ++ tokenNodes index_labels 0 ts ++ edgeLines (-1) ds ++ "\x7d\n")

/-! ### Structured view of the emitted statements

To reason about node and edge declarations individually we also record the
emission of both loops as a list of statements and prove (below) that
`deps_to_graph` is exactly the rendering of this list. -/

/-- One emitted graph statement: a node declaration or an edge declaration. -/
inductive Stmt where
  | node (index : Int) (label : String)
  | edge (gov dep : Int) (rel : String)
deriving DecidableEq

/-- The statements emitted by the token loop. -/
def tokenStmts (index_labels : Bool) : Nat → List Token → List Stmt
  | _, [] => []
  | i, t :: rest =>
    Stmt.node i ((if index_labels then "(" ++ toString i ++ ") " else "") ++ escape t.text)
      :: tokenStmts index_labels (i + 1) rest

/-- The statements emitted by the edge loop. -/
def edgeStmts : Int → List DependencyEdge → List Stmt
  | _, [] => []
  | si, e :: rest =>
    if e.relationship == ROOT then
      Stmt.node si ("S" ++ toString (-si))
        :: Stmt.edge si e.dependencyTokenIndex e.relationship
        :: edgeStmts (si - 1) rest
    else
      Stmt.edge e.governorTokenIndex e.dependencyTokenIndex e.relationship :: edgeStmts si rest

/-- All statements emitted by `deps_to_graph`. -/
def graphStmts (adm : AnnotatedDocument) (index_labels : Bool := false) : Option (List Stmt) := do
  let ts ← tokens adm
  let ds ← dependencies adm
  pure (tokenStmts index_labels 0 ts ++ edgeStmts (-1) ds)

/-- Is a statement a node declaration? -/
def isNodeStmt : Stmt → Bool
  | Stmt.node _ _ => true
  | Stmt.edge _ _ _ => false

/-- Is a statement an edge declaration? -/
def isEdgeStmt : Stmt → Bool
  | Stmt.node _ _ => false
  | Stmt.edge _ _ _ => true

/-- The (index, label) pairs of the node declarations in a statement list. -/
def stmtNodes : List Stmt → List (Int × String)
  | [] => []
  | Stmt.node i l :: r => (i, l) :: stmtNodes r
  | Stmt.edge _ _ _ :: r => stmtNodes r

/-- The governor indices of the edge declarations labeled with the root
relation. -/
def stmtRootGovs : List Stmt → List Int
  | [] => []
  | Stmt.node _ _ :: r => stmtRootGovs r
  | Stmt.edge g _ rel :: r => if rel == ROOT then g :: stmtRootGovs r else stmtRootGovs r

/-- The node indices referenced by a statement (the two endpoints of an edge
declaration; a node declaration references nothing). -/
def stmtRefs : Stmt → List Int
  | Stmt.node _ _ => []
  | Stmt.edge g d _ => [g, d]

/-- The indices that carry a node declaration in a statement list. -/
def nodeIndices (l : List Stmt) : List Int :=
  (stmtNodes l).map Prod.fst

/-- Some edge statement of the list references a node index for which no node
declaration was emitted. -/
def danglingRef (l : List Stmt) : Prop :=
  ∃ st ∈ l, ∃ i ∈ stmtRefs st, i ∉ nodeIndices l

instance : DecidablePred danglingRef := fun l => by unfold danglingRef; infer_instance

/-- Rendering of a token-loop statement (all are newline-terminated `NODE`s). -/
def renderNodeStmt : Stmt → String
  | Stmt.node i l => NODE i l
  | Stmt.edge _ _ _ => ""

/-- Rendering of an edge-loop statement: edge statements get a trailing
newline, synthetic node statements do not. -/
def renderEdgeStmt : Stmt → String
  | Stmt.node i l => toString i ++ " [label=\"" ++ l ++ "\"]"
  | Stmt.edge g d r => EDGE ⟨r, g, d⟩ ++ "\n"

/-- Concatenation of a list of strings. -/
def sjoin : List String → String
  | [] => ""
  | s :: rest => s ++ sjoin rest

/-! ### The in-place mutation performed by the edge loop

Line 205 of the source (`edge['governorTokenIndex'] = sentence_index`) writes
through the dict references shared between the sorted list returned by
`dependencies` and `adm['attributes']['dependency']['items']`.  The functions
below model the state of that `items` list (in its original order) after
`deps_to_graph` returns.  Items are tagged with their original position to
track object identity through the stable sort. -/

/-- The sort order lifted to position-tagged edges. -/
def tagLE (a b : Nat × DependencyEdge) : Prop := depLE a.2 b.2

instance : DecidableRel tagLE := fun a b => by unfold tagLE; infer_instance

/-- The sorted list built by `dependencies`, with each element tagged by its
original position in `items`. -/
def sortTagged (ds : List DependencyEdge) : List (Nat × DependencyEdge) :=
  List.insertionSort tagLE ds.enum

/-- The governor values written by line 205, keyed by original position:
iterating in sorted order, each root edge receives the current
`sentence_index`, which then decrements. -/
def rootAssignments : Int → List (Nat × DependencyEdge) → List (Nat × Int)
  | _, [] => []
  | si, (i, e) :: rest =>
    if e.relationship == ROOT then (i, si) :: rootAssignments (si - 1) rest
    else rootAssignments si rest

/-- Look up the governor value written for original position `i`, if any. -/
def findAssign : List (Nat × Int) → Nat → Option Int
  | [], _ => none
  | (j, g) :: rest, i => if j = i then some g else findAssign rest i

/-- The dependency `items` list after a call of `deps_to_graph`, in its
original order: each root edge's `governorTokenIndex` has been overwritten by
the synthetic index assigned to it, all other items are untouched. -/
def itemsAfter (ds : List DependencyEdge) : List DependencyEdge :=
  ds.enum.map fun p =>
    match findAssign (rootAssignments (-1) (sortTagged ds)) p.1 with
    | some g => { p.2 with governorTokenIndex := g }
    | none => p.2

/-! ### Auxiliary notions used only to state properties -/

/-- Inverse of the escaping pass: drop one backslash before each escaped
character.  Used to state that `escape` adds exactly one backslash per
qualifying character and never re-escapes inserted backslashes. -/
def unescapeChars : List Char → List Char
  | [] => []
  | [c] => [c]
  | c :: d :: rest =>
    if c = '\\' then d :: unescapeChars rest else c :: unescapeChars (d :: rest)

/-- Does `needle` occur at the start of `hay`? -/
def hasPrefixSeg : List Char → List Char → Bool
  | _, [] => true
  | [], _ :: _ => false
  | a :: as, b :: bs => a == b && hasPrefixSeg as bs

/-- Does `needle` occur contiguously anywhere in `hay`? -/
def hasSeg : List Char → List Char → Bool
  | _, [] => true
  | [], _ :: _ => false
  | a :: as, b :: bs => hasPrefixSeg (a :: as) (b :: bs) || hasSeg as (b :: bs)

/-- The string ends with a newline character. -/
def endsNL (s : String) : Prop := s.data.getLast? = some '\n'

/-- The number of edges whose relation label equals the root marker. -/
def countRoots (ds : List DependencyEdge) : Nat :=
  ds.countP fun e => e.relationship == ROOT

/-- Rewrite the `governorTokenIndex` of every root-labeled edge by `f`,
leaving all other edges untouched.  Used only to state that the edge loop
never reads a root edge's governor index. -/
def mapRootGov (f : Int → Int) (ds : List DependencyEdge) : List DependencyEdge :=
  ds.map fun e =>
    if e.relationship == ROOT then { e with governorTokenIndex := f e.governorTokenIndex } else e

/-! ### The example document from the source's docstring

Tokens `["This","is","a","sentence","."]` at offsets
`(0,4) (5,7) (8,9) (10,18) (18,19)` with the five dependency edges of the
sentence "This is a sentence." -/

def exampleTokens : List Token :=
  [⟨"This", some 0, some 4⟩, ⟨"is", some 5, some 7⟩, ⟨"a", some 8, some 9⟩,
   ⟨"sentence", some 10, some 18⟩, ⟨".", some 18, some 19⟩]

def exampleDeps : List DependencyEdge :=
  [⟨"nsubj", 3, 0⟩, ⟨"cop", 3, 1⟩, ⟨"det", 3, 2⟩, ⟨"root", -1, 3⟩, ⟨"punct", 3, 4⟩]

def exampleAdm : AnnotatedDocument :=
  ⟨some ⟨some ⟨some exampleTokens⟩, some ⟨some exampleDeps⟩⟩⟩

/-! ### Lemmas about `escape` -/

lemma escapeChars_flatMap (l : List Char) :
    escapeChars l = l.flatMap (fun c => if specialChar c then ['\\', c] else [c]) := by
  induction l with
  | nil => rfl
  | cons c L ih =>
    by_cases h : specialChar c <;> simp [escapeChars, h, ih]

lemma unescapeChars_escapeChars (l : List Char) :
    unescapeChars (escapeChars l) = l := by
  induction l with
  | nil => rfl
  | cons c L ih =>
    by_cases h : specialChar c
    · simp [escapeChars, h, unescapeChars, ih]
    · have hc : c ≠ '\\' := by
        intro e
        rw [e] at h
        simp [specialChar] at h
      cases hE : escapeChars L with
      | nil =>
        rw [hE] at ih
        simp [escapeChars, h, hE, unescapeChars]
        exact ih.symm
      | cons d R =>
        rw [hE] at ih
        simp [escapeChars, h, hE, unescapeChars, hc, ih]

lemma escapeChars_of_no_special (l : List Char) (h : ∀ c ∈ l, specialChar c = false) :
    escapeChars l = l := by
  induction l with
  | nil => rfl
  | cons c L ih =>
    have hc := h c (by simp)
    simp [escapeChars, hc, ih fun d hd => h d (by simp [hd])]

/-- C2: `escape` returns its input with each occurrence of `[`, `]`, `(`, `)`,
`"` or `\` preceded by exactly one added backslash, applied once per
qualifying character scanning left to right without re-escaping inserted
backslashes (dropping one backslash before each escaped character recovers
the input); on `a[b]c"d\e(f)g` it yields `a\[b\]c\"d\\e\(f\)g`, and a string
with no qualifying character is returned unchanged. -/
theorem escape_spec :
    (∀ s : String,
        (escape s).data = s.data.flatMap (fun c => if specialChar c then ['\\', c] else [c])) ∧
    (∀ s : String, unescapeChars (escape s).data = s.data) ∧
    escape "a[b]c\"d\\e(f)g" = "a\\[b\\]c\\\"d\\\\e\\(f\\)g" ∧
    (∀ s : String, (∀ c ∈ s.data, specialChar c = false) → escape s = s) := by
  refine ⟨fun s => escapeChars_flatMap s.data, fun s => unescapeChars_escapeChars s.data,
    by decide, fun s h => ?_⟩
  cases s with
  | mk d => exact congrArg String.mk (escapeChars_of_no_special d h)

/-- Witness for `escape_spec`: its last conjunct applied to the concrete
string `"abc"`, which contains no special character. -/
theorem escape_spec_witness :
    (∀ c ∈ ("abc" : String).data, specialChar c = false) ∧ escape "abc" = "abc" :=
  ⟨by decide, escape_spec.2.2.2 "abc" (by decide)⟩

/-! ### Missing containers and the end-to-end scenario -/

/-- C9: if the document lacks the `attributes`, `token`/`dependency`, or
`items` fields, the `tokens` and `dependencies` accessors fail (return
`none`, modelling the `KeyError` raised in Python) instead of returning an
empty sequence, and `deps_to_graph` produces no graph at all. -/
theorem missing_container_fails (adm : AnnotatedDocument) (b : Bool) :
    (adm.attributes = none →
      tokens adm = none ∧ dependencies adm = none ∧ deps_to_graph adm b = none) ∧
    (∀ a, adm.attributes = some a →
      (a.token = none → tokens adm = none ∧ deps_to_graph adm b = none) ∧
      (∀ tc, a.token = some tc → tc.items = none →
          tokens adm = none ∧ deps_to_graph adm b = none) ∧
      (a.dependency = none → dependencies adm = none ∧ deps_to_graph adm b = none) ∧
      (∀ dc, a.dependency = some dc → dc.items = none →
          dependencies adm = none ∧ deps_to_graph adm b = none)) := by
  constructor
  · intro h
    exact ⟨by simp [tokens, h], by simp [dependencies, h], by simp [deps_to_graph, tokens, h]⟩
  · intro a ha
    refine ⟨fun h => ⟨by simp [tokens, ha, h], by simp [deps_to_graph, tokens, ha, h]⟩,
      fun tc htc hit => ⟨by simp [tokens, ha, htc, hit],
        by simp [deps_to_graph, tokens, ha, htc, hit]⟩,
      fun h => ⟨by simp [dependencies, ha, h], ?_⟩,
      fun dc hdc hit => ⟨by simp [dependencies, ha, hdc, hit], ?_⟩⟩
    · have hd : dependencies adm = none := by simp [dependencies, ha, h]
      cases ht : tokens adm <;> simp [deps_to_graph, ht, hd]
    · have hd : dependencies adm = none := by simp [dependencies, ha, hdc, hit]
      cases ht : tokens adm <;> simp [deps_to_graph, ht, hd]

/-- Witness for `missing_container_fails`: a document with no `attributes`
key yields an error from both accessors and no graph. -/
theorem missing_container_fails_witness :
    tokens ⟨none⟩ = none ∧ dependencies ⟨none⟩ = none ∧ deps_to_graph ⟨none⟩ false = none :=
  (missing_container_fails ⟨none⟩ false).1 rfl

/-- C1: on the docstring document (tokens `This is a sentence .` at strictly
increasing offsets, edges nsubj/cop/det/root/punct), `deps_to_graph` with
index labels disabled produces exactly this graph description; the emitted
statements are 6 node declarations (indices -1, 0..4, node -1 labeled "S1",
nodes 0-4 labeled with the token texts) and 5 edge declarations, with the
root edge emitted as `-1 -> 3 [label="root"]`. -/
theorem example_scenario :
    deps_to_graph exampleAdm false =
      some ("digraph G\x7b\nedge [dir=\"forward\", arrowhead=\"open\", arrowsize=0.5]\nnode [shape=\"box\", height=0]\n0 [label=\"This\"]\n1 [label=\"is\"]\n2 [label=\"a\"]\n3 [label=\"sentence\"]\n4 [label=\".\"]\n-1 [label=\"S1\"]-1 -> 3 [label=\"root\"]\n3 -> 0 [label=\"nsubj\"]\n3 -> 1 [label=\"cop\"]\n3 -> 2 [label=\"det\"]\n3 -> 4 [label=\"punct\"]\n\x7d\n") ∧
    graphStmts exampleAdm false =
      some [Stmt.node 0 "This", Stmt.node 1 "is", Stmt.node 2 "a", Stmt.node 3 "sentence",
        Stmt.node 4 ".", Stmt.node (-1) "S1", Stmt.edge (-1) 3 "root",
        Stmt.edge 3 0 "nsubj", Stmt.edge 3 1 "cop", Stmt.edge 3 2 "det",
        Stmt.edge 3 4 "punct"] ∧
    (graphStmts exampleAdm false).map (fun l => l.countP isNodeStmt) = some 6 ∧
    (graphStmts exampleAdm false).map (fun l => l.countP isEdgeStmt) = some 5 := by
  exact ⟨by decide, by decide, by decide, by decide⟩

/-- Counterexample to C5 as stated: in the output for the docstring document,
the synthetic sentence-root node statement `-1 [label="S1"]` occurs, but its
occurrence is never followed by a newline (it is directly concatenated to the
root edge statement), so not every statement is newline-terminated. -/
theorem statement_termination_counterexample :
    deps_to_graph exampleAdm false =
      some ("digraph G\x7b\nedge [dir=\"forward\", arrowhead=\"open\", arrowsize=0.5]\nnode [shape=\"box\", height=0]\n0 [label=\"This\"]\n1 [label=\"is\"]\n2 [label=\"a\"]\n3 [label=\"sentence\"]\n4 [label=\".\"]\n-1 [label=\"S1\"]-1 -> 3 [label=\"root\"]\n3 -> 0 [label=\"nsubj\"]\n3 -> 1 [label=\"cop\"]\n3 -> 2 [label=\"det\"]\n3 -> 4 [label=\"punct\"]\n\x7d\n") ∧
    hasSeg ("digraph G\x7b\nedge [dir=\"forward\", arrowhead=\"open\", arrowsize=0.5]\nnode [shape=\"box\", height=0]\n0 [label=\"This\"]\n1 [label=\"is\"]\n2 [label=\"a\"]\n3 [label=\"sentence\"]\n4 [label=\".\"]\n-1 [label=\"S1\"]-1 -> 3 [label=\"root\"]\n3 -> 0 [label=\"nsubj\"]\n3 -> 1 [label=\"cop\"]\n3 -> 2 [label=\"det\"]\n3 -> 4 [label=\"punct\"]\n\x7d\n").data ("-1 [label=\"S1\"]").data = true ∧
    hasSeg ("digraph G\x7b\nedge [dir=\"forward\", arrowhead=\"open\", arrowsize=0.5]\nnode [shape=\"box\", height=0]\n0 [label=\"This\"]\n1 [label=\"is\"]\n2 [label=\"a\"]\n3 [label=\"sentence\"]\n4 [label=\".\"]\n-1 [label=\"S1\"]-1 -> 3 [label=\"root\"]\n3 -> 0 [label=\"nsubj\"]\n3 -> 1 [label=\"cop\"]\n3 -> 2 [label=\"det\"]\n3 -> 4 [label=\"punct\"]\n\x7d\n").data ("-1 [label=\"S1\"]\n").data = false := by
  exact ⟨by decide, by decide, by decide⟩

/-! ### Linking the string output to the statement stream -/

lemma synthNode_eq (si : Int) :
    synthNode si = toString si ++ " [label=\"" ++ ("S" ++ toString (-si)) ++ "\"]" := by
  unfold synthNode
  rw [show (" [label=\"S" : String) = " [label=\"" ++ "S" from by decide,
    ← String.append_assoc (toString si) " [label=\"" "S",
    String.append_assoc (toString si ++ " [label=\"") "S" (toString (-si))]

lemma tokenNodes_render (b : Bool) (ts : List Token) : ∀ (i : Nat),
    tokenNodes b i ts = sjoin ((tokenStmts b i ts).map renderNodeStmt) := by
  induction ts with
  | nil => intro i; rfl
  | cons t rest ih =>
    intro i
    simp [tokenNodes, tokenStmts, sjoin, renderNodeStmt, ih]

lemma edgeLines_render (ds : List DependencyEdge) : ∀ (si : Int),
    edgeLines si ds = sjoin ((edgeStmts si ds).map renderEdgeStmt) := by
  induction ds with
  | nil => intro si; rfl
  | cons e rest ih =>
    intro si
    by_cases h : e.relationship == ROOT
    · simp [edgeLines, edgeStmts, h, sjoin, renderEdgeStmt, ih, synthNode_eq,
        String.append_assoc]
    · simp [edgeLines, edgeStmts, h, sjoin, renderEdgeStmt, ih, String.append_assoc]

lemma deps_to_graph_render (adm : AnnotatedDocument) (b : Bool)
    (ts : List Token) (ds : List DependencyEdge)
    (h1 : tokens adm = some ts) (h2 : dependencies adm = some ds) :
    deps_to_graph adm b = some ("digraph G\x7b" ++ STYLE
      ++ sjoin ((tokenStmts b 0 ts).map renderNodeStmt)
      ++ sjoin ((edgeStmts (-1) ds).map renderEdgeStmt) ++ "\x7d\n") := by
  simp [deps_to_graph, h1, h2, tokenNodes_render, edgeLines_render]

lemma endsNL_append_nl (s : String) : endsNL (s ++ "\n") := by
  unfold endsNL
  rw [String.data_append]
  exact List.getLast?_concat _

lemma not_endsNL_append_bracket (s : String) : ¬ endsNL (s ++ "\"]") := by
  unfold endsNL
  rw [show ("\"]" : String) = "\"" ++ "]" from by decide, ← String.append_assoc,
    String.data_append, List.getLast?_concat]
  simp

lemma endsNL_NODE (i : Int) (l : String) : endsNL (NODE i l) := by
  unfold NODE
  rw [show ("\"]\n" : String) = "\"]" ++ "\n" from by decide, ← String.append_assoc]
  exact endsNL_append_nl _

lemma tokenStmts_shape (b : Bool) (ts : List Token) : ∀ (i : Nat), ∀ st ∈ tokenStmts b i ts,
    ∃ j l, st = Stmt.node j l := by
  induction ts with
  | nil => intro i st h; simp [tokenStmts] at h
  | cons t rest ih =>
    intro i st h
    rw [tokenStmts] at h
    rcases List.mem_cons.mp h with h | h
    · exact ⟨_, _, h⟩
    · exact ih (i + 1) st h

/-- C5, amended: every per-token node statement and every edge statement in
the output of `deps_to_graph` is newline-terminated, and the whole is wrapped
in a `digraph G{ ... }` block with the fixed style preamble; however, the
synthetic sentence-root node statements are NOT newline-terminated — each is
emitted without a trailing newline, directly concatenated to its root edge
statement. -/
theorem statement_termination (adm : AnnotatedDocument) (b : Bool)
    (ts : List Token) (ds : List DependencyEdge)
    (h1 : tokens adm = some ts) (h2 : dependencies adm = some ds) :
    deps_to_graph adm b = some ("digraph G\x7b" ++ STYLE
      ++ sjoin ((tokenStmts b 0 ts).map renderNodeStmt)
      ++ sjoin ((edgeStmts (-1) ds).map renderEdgeStmt) ++ "\x7d\n") ∧
    (∀ st ∈ tokenStmts b 0 ts, endsNL (renderNodeStmt st)) ∧
    (∀ g d r, Stmt.edge g d r ∈ edgeStmts (-1) ds →
        endsNL (renderEdgeStmt (Stmt.edge g d r))) ∧
    (∀ i l, Stmt.node i l ∈ edgeStmts (-1) ds →
        ¬ endsNL (renderEdgeStmt (Stmt.node i l))) := by
  refine ⟨deps_to_graph_render adm b ts ds h1 h2, fun st hst => ?_,
    fun g d r _ => endsNL_append_nl _, fun i l _ => not_endsNL_append_bracket _⟩
  obtain ⟨j, lbl, rfl⟩ := tokenStmts_shape b ts 0 st hst
  exact endsNL_NODE j lbl

/-- Witness for `statement_termination`: its decomposition conjunct at the
docstring example document. -/
theorem statement_termination_witness :
    deps_to_graph exampleAdm false = some ("digraph G\x7b" ++ STYLE
      ++ sjoin ((tokenStmts false 0 (sortTokens exampleTokens)).map renderNodeStmt)
      ++ sjoin ((edgeStmts (-1) (sortDependencies exampleDeps)).map renderEdgeStmt)
      ++ "\x7d\n") :=
  (statement_termination exampleAdm false (sortTokens exampleTokens)
    (sortDependencies exampleDeps) (by decide) (by decide)).1

/-! ### Properties of the two sorted accessors -/

lemma lexLE_refl (p : Int × Int) : lexLE p p := Or.inr ⟨rfl, le_refl _⟩

lemma lexLE_trans {p q r : Int × Int} (h1 : lexLE p q) (h2 : lexLE q r) : lexLE p r := by
  unfold lexLE at *
  omega

lemma lexLE_total (p q : Int × Int) : lexLE p q ∨ lexLE q p := by
  unfold lexLE
  omega

/-- Stability of the token sort: for each key value, the tokens carrying that
key appear in the output in their original relative order. -/
lemma sortTokens_stable (items : List Token) (p : Int × Int) :
    (sortTokens items).filter (fun t => decide (extent t = p))
      = items.filter (fun t => decide (extent t = p)) := by
  set P : Token → Bool := fun t => decide (extent t = p) with hP
  have hsub : (items.filter P).Sublist items := List.filter_sublist items
  have hpair : (items.filter P).Pairwise tokenLE := by
    apply List.pairwise_of_forall_mem_list
    intro a ha b hb
    have ha' : extent a = p := by simpa [hP] using (List.mem_filter.mp ha).2
    have hb' : extent b = p := by simpa [hP] using (List.mem_filter.mp hb).2
    unfold tokenLE
    rw [ha', hb']
    exact lexLE_refl p
  have h1 : (items.filter P).Sublist (sortTokens items) := List.sublist_insertionSort hpair hsub
  have h2 : ((sortTokens items).filter P).Perm (items.filter P) :=
    (List.perm_insertionSort tokenLE items).filter P
  have h3 : (items.filter P).Sublist ((sortTokens items).filter P) := by
    have h4 := h1.filter P
    rwa [List.filter_filter,
      show (fun a => P a && P a) = P from by funext a; exact Bool.and_self _] at h4
  exact (h3.eq_of_length h2.length_eq.symm).symm

/-- C6: for a document containing the token container, `tokens` returns a
permutation of the token items, sorted by the `(startOffset, endOffset)` key
(`extent`, which defaults missing offsets to -1 exactly as `obj.get` does),
stable for tokens sharing identical offsets, and idempotent: sorting the
already-sorted result changes nothing, so applying the accessor twice to the
same input yields the same sequence. -/
theorem ordered_tokens_spec (adm : AnnotatedDocument) (a : Attributes) (tc : TokenAttribute)
    (items : List Token) (h1 : adm.attributes = some a) (h2 : a.token = some tc)
    (h3 : tc.items = some items) :
    tokens adm = some (sortTokens items) ∧
    (sortTokens items).Perm items ∧
    List.Sorted tokenLE (sortTokens items) ∧
    (∀ p : Int × Int, (sortTokens items).filter (fun t => decide (extent t = p))
        = items.filter (fun t => decide (extent t = p))) ∧
    sortTokens (sortTokens items) = sortTokens items :=
  ⟨by simp [tokens, h1, h2, h3], List.perm_insertionSort _ _,
    List.sorted_insertionSort _ _, fun p => sortTokens_stable items p,
    List.Sorted.insertionSort_eq (List.sorted_insertionSort _ _)⟩

/-- Witness for `ordered_tokens_spec`: the docstring example document. -/
theorem ordered_tokens_spec_witness :
    tokens exampleAdm = some (sortTokens exampleTokens) ∧
    (sortTokens exampleTokens).Perm exampleTokens :=
  ⟨(ordered_tokens_spec exampleAdm _ _ exampleTokens rfl rfl rfl).1,
   (ordered_tokens_spec exampleAdm _ _ exampleTokens rfl rfl rfl).2.1⟩

/-- C7: for a document containing the dependency container, `dependencies`
returns a permutation of the dependency items sorted by
`(governorTokenIndex, dependencyTokenIndex)`; consequently every edge that
precedes a root edge (governor -1) has a negative governor index, i.e. all
root edges appear before any edge with non-negative governor. -/
theorem ordered_dependencies_spec (adm : AnnotatedDocument) (a : Attributes)
    (dc : DependencyAttribute) (items : List DependencyEdge)
    (h1 : adm.attributes = some a) (h2 : a.dependency = some dc)
    (h3 : dc.items = some items) :
    dependencies adm = some (sortDependencies items) ∧
    (sortDependencies items).Perm items ∧
    List.Sorted depLE (sortDependencies items) ∧
    (sortDependencies items).Pairwise
      (fun x y => y.governorTokenIndex = -1 → x.governorTokenIndex < 0) := by
  refine ⟨by simp [dependencies, h1, h2, h3], List.perm_insertionSort _ _,
    List.sorted_insertionSort _ _, ?_⟩
  have hs : (sortDependencies items).Pairwise depLE := List.sorted_insertionSort depLE items
  exact hs.imp fun {x y} hxy hgov => by unfold depLE lexLE depKey at hxy; omega

/-- Witness for `ordered_dependencies_spec`: the docstring example document. -/
theorem ordered_dependencies_spec_witness :
    dependencies exampleAdm = some (sortDependencies exampleDeps) ∧
    (sortDependencies exampleDeps).Perm exampleDeps :=
  ⟨(ordered_dependencies_spec exampleAdm _ _ exampleDeps rfl rfl rfl).1,
   (ordered_dependencies_spec exampleAdm _ _ exampleDeps rfl rfl rfl).2.1⟩

/-! ### The edge loop: synthetic root numbering and classification -/

lemma toString_intCast (n : Nat) : toString ((n : Int)) = toString n := rfl

lemma stmtNodes_edgeStmts (ds : List DependencyEdge) : ∀ (si : Int),
    stmtNodes (edgeStmts si ds)
      = (List.range (countRoots ds)).map
          (fun k : Nat => (si - (k : Int), "S" ++ toString ((k : Int) - si))) := by
  induction ds with
  | nil => intro si; simp [edgeStmts, stmtNodes, countRoots]
  | cons e rest ih =>
    intro si
    by_cases h : e.relationship == ROOT
    · have hc : countRoots (e :: rest) = countRoots rest + 1 := by
        simp [countRoots, List.countP_cons, h]
      rw [hc, List.range_succ_eq_map]
      simp only [edgeStmts, if_pos h, stmtNodes, ih (si - 1), List.map_cons, List.map_map]
      congr 1
      · simp
      · apply List.map_eq_map_iff.mpr
        intro k hk
        congr 1
        · show si - 1 - (k : Int) = si - ((Nat.succ k : Nat) : Int)
          push_cast
          ring
        · congr 1
          congr 1
          push_cast
          ring
    · have hc : countRoots (e :: rest) = countRoots rest := by
        simp [countRoots, List.countP_cons, h]
      rw [hc]
      simp only [edgeStmts, if_neg h, stmtNodes, ih si]

lemma stmtRootGovs_edgeStmts (ds : List DependencyEdge) : ∀ (si : Int),
    stmtRootGovs (edgeStmts si ds)
      = (List.range (countRoots ds)).map (fun k : Nat => si - (k : Int)) := by
  induction ds with
  | nil => intro si; simp [edgeStmts, stmtRootGovs, countRoots]
  | cons e rest ih =>
    intro si
    by_cases h : e.relationship == ROOT
    · have hc : countRoots (e :: rest) = countRoots rest + 1 := by
        simp [countRoots, List.countP_cons, h]
      rw [hc, List.range_succ_eq_map]
      simp only [edgeStmts, if_pos h, stmtRootGovs, ih (si - 1), List.map_cons, List.map_map,
        if_pos h]
      congr 1
      · simp
      · apply List.map_eq_map_iff.mpr
        intro k hk
        show si - 1 - (k : Int) = si - ((Nat.succ k : Nat) : Int)
        push_cast
        ring
    · have hc : countRoots (e :: rest) = countRoots rest := by
        simp [countRoots, List.countP_cons, h]
      rw [hc]
      simp only [edgeStmts, if_neg h, stmtRootGovs, ih si, if_neg h]

/-- C3: when the edge loop starts at sentence index -1, the n-th root edge
(1-based, in processed order) yields the synthetic node `(-n, "S<n>")` and an
edge statement whose governor has been rewritten to `-n`; the synthetic
indices are strictly decreasing and pairwise distinct. -/
theorem synthetic_root_numbering (adm : AnnotatedDocument) (ds : List DependencyEdge)
    (hds : dependencies adm = some ds) :
    stmtNodes (edgeStmts (-1) ds)
      = (List.range (countRoots ds)).map
          (fun k : Nat => (-((k : Int) + 1), "S" ++ toString (k + 1))) ∧
    stmtRootGovs (edgeStmts (-1) ds)
      = (List.range (countRoots ds)).map (fun k : Nat => -((k : Int) + 1)) ∧
    ((stmtNodes (edgeStmts (-1) ds)).map Prod.fst).Pairwise (· > ·) ∧
    ((stmtNodes (edgeStmts (-1) ds)).map Prod.fst).Nodup := by
  have h1 : stmtNodes (edgeStmts (-1) ds)
      = (List.range (countRoots ds)).map
          (fun k : Nat => (-((k : Int) + 1), "S" ++ toString (k + 1))) := by
    rw [stmtNodes_edgeStmts ds (-1)]
    apply List.map_eq_map_iff.mpr
    intro k hk
    congr 1
    all_goals omega
  have h2 : ((stmtNodes (edgeStmts (-1) ds)).map Prod.fst).Pairwise (· > ·) := by
    rw [h1, List.map_map,
      show (Prod.fst ∘ fun k : Nat => (-((k : Int) + 1), "S" ++ toString (k + 1)))
          = (fun k : Nat => -((k : Int) + 1)) from rfl]
    exact List.pairwise_map.mpr ((List.pairwise_lt_range _).imp fun {a b} hab => by omega)
  refine ⟨h1, ?_, h2, h2.imp fun {a b} hab => ne_of_gt hab⟩
  rw [stmtRootGovs_edgeStmts ds (-1)]
  apply List.map_eq_map_iff.mpr
  intro k hk
  omega

/-- Witness for `synthetic_root_numbering`: the docstring example document
has one root edge, numbered S1 at index -1. -/
theorem synthetic_root_numbering_witness :
    stmtNodes (edgeStmts (-1) (sortDependencies exampleDeps)) = [(-1, "S1")] := by
  have h := (synthetic_root_numbering exampleAdm (sortDependencies exampleDeps) (by decide)).1
  exact h.trans (by decide)

lemma stmtNodes_length (ds : List DependencyEdge) : ∀ (si : Int),
    (stmtNodes (edgeStmts si ds)).length = ds.countP (fun e => e.relationship == ROOT) := by
  induction ds with
  | nil => intro si; simp [edgeStmts, stmtNodes]
  | cons e rest ih =>
    intro si
    by_cases h : e.relationship == ROOT
    · simp [edgeStmts, h, stmtNodes, ih, List.countP_cons]
    · simp [edgeStmts, h, stmtNodes, ih, List.countP_cons]

lemma edgeStmts_mapRootGov (ds : List DependencyEdge) : ∀ (si : Int) (f : Int → Int),
    edgeStmts si (mapRootGov f ds) = edgeStmts si ds := by
  induction ds with
  | nil => intro si f; rfl
  | cons e rest ih =>
    intro si f
    by_cases h : e.relationship == ROOT
    · simp [mapRootGov, edgeStmts, h]
      simpa [mapRootGov] using ih (si - 1) f
    · simp [mapRootGov, edgeStmts, h]
      simpa [mapRootGov] using ih si f

/-- C10: the edge loop classifies sentence-root edges by their relation label
alone.  The number of synthetic nodes equals the number of root-labeled edges;
the emitted statements do not depend on the governor indices of root-labeled
edges at all (so an original governor index of a root edge — even a valid
non-negative one — never reaches the output, whose governor is the current
synthetic index); a root-labeled edge with any governor produces a synthetic
node and a rewritten edge, while an edge with governor -1 but a different
label produces no synthetic node and keeps its governor. -/
theorem root_classification_by_label :
    (∀ (si : Int) (ds : List DependencyEdge),
        (stmtNodes (edgeStmts si ds)).length = ds.countP (fun e => e.relationship == ROOT)) ∧
    (∀ (si : Int) (f : Int → Int) (ds : List DependencyEdge),
        edgeStmts si (mapRootGov f ds) = edgeStmts si ds) ∧
    (∀ (si : Int) (e : DependencyEdge) (rest : List DependencyEdge),
        e.relationship = ROOT →
        edgeStmts si (e :: rest)
          = Stmt.node si ("S" ++ toString (-si))
              :: Stmt.edge si e.dependencyTokenIndex e.relationship
              :: edgeStmts (si - 1) rest) ∧
    (∀ (si : Int) (e : DependencyEdge) (rest : List DependencyEdge),
        e.relationship ≠ ROOT →
        edgeStmts si (e :: rest)
          = Stmt.edge e.governorTokenIndex e.dependencyTokenIndex e.relationship
              :: edgeStmts si rest) ∧
    edgeStmts (-1) [⟨"root", 2, 0⟩] = [Stmt.node (-1) "S1", Stmt.edge (-1) 0 "root"] ∧
    edgeStmts (-1) [⟨"nmod", -1, 0⟩] = [Stmt.edge (-1) 0 "nmod"] := by
  refine ⟨fun si ds => stmtNodes_length ds si, fun si f ds => edgeStmts_mapRootGov ds si f,
    fun si e rest h => by simp [edgeStmts, h], fun si e rest h => by simp [edgeStmts, h],
    by decide, by decide⟩

/-- Witness for `root_classification_by_label`: a root edge with the valid
non-negative governor index 5 still becomes a synthetic root at -1. -/
theorem root_classification_by_label_witness :
    edgeStmts (-1) [⟨"root", 5, 7⟩] = [Stmt.node (-1) "S1", Stmt.edge (-1) 7 "root"] := by
  have h := root_classification_by_label.2.2.1 (-1) ⟨"root", 5, 7⟩ [] rfl
  exact h.trans (by decide)

/-! ### Out-of-range indices do not fail -/

lemma edge_mem_edgeStmts (e : DependencyEdge) (hrel : e.relationship ≠ ROOT)
    (ds : List DependencyEdge) : ∀ (si : Int), e ∈ ds →
    Stmt.edge e.governorTokenIndex e.dependencyTokenIndex e.relationship ∈ edgeStmts si ds := by
  induction ds with
  | nil => intro si h; simp at h
  | cons f rest ih =>
    intro si hmem
    rcases List.mem_cons.mp hmem with rfl | hmem
    · have hb : (e.relationship == ROOT) = false := by
        simp [hrel]
      simp [edgeStmts, hb]
    · by_cases hf : (f.relationship == ROOT)
      · simp only [edgeStmts, if_pos hf]
        exact List.mem_cons_of_mem _ (List.mem_cons_of_mem _ (ih (si - 1) hmem))
      · simp only [edgeStmts, if_neg hf]
        exact List.mem_cons_of_mem _ (ih si hmem)

lemma node_indices_tokenStmts (b : Bool) (ts : List Token) : ∀ (i : Nat) (idx : Int)
    (lbl : String), Stmt.node idx lbl ∈ tokenStmts b i ts →
    (i : Int) ≤ idx ∧ idx < (i : Int) + ts.length := by
  induction ts with
  | nil => intro i idx lbl h; simp [tokenStmts] at h
  | cons t rest ih =>
    intro i idx lbl h
    rw [tokenStmts] at h
    rcases List.mem_cons.mp h with h | h
    · have : idx = (i : Int) := by
        simpa using congrArg (fun st => match st with
          | Stmt.node j _ => j
          | Stmt.edge _ _ _ => 0) h
      rw [this]
      simp only [List.length_cons]
      omega
    · have h2 := ih (i + 1) idx lbl h
      simp only [List.length_cons]
      omega

lemma node_indices_edgeStmts (ds : List DependencyEdge) : ∀ (si : Int) (idx : Int)
    (lbl : String), Stmt.node idx lbl ∈ edgeStmts si ds → idx ≤ si := by
  induction ds with
  | nil => intro si idx lbl h; simp [edgeStmts] at h
  | cons e rest ih =>
    intro si idx lbl h
    by_cases he : (e.relationship == ROOT)
    · rw [edgeStmts, if_pos he] at h
      rcases List.mem_cons.mp h with h | h
      · have : idx = si := by
          simpa using congrArg (fun st => match st with
            | Stmt.node j _ => j
            | Stmt.edge _ _ _ => 0) h
        omega
      · rcases List.mem_cons.mp h with h | h
        · simp at h
        · have := ih (si - 1) idx lbl h
          omega
    · rw [edgeStmts, if_neg he] at h
      rcases List.mem_cons.mp h with h | h
      · simp at h
      · exact ih si idx lbl h

lemma edge_dep_mem_edgeStmts (e : DependencyEdge) (ds : List DependencyEdge) : ∀ (si : Int),
    e ∈ ds → ∃ g, Stmt.edge g e.dependencyTokenIndex e.relationship ∈ edgeStmts si ds := by
  induction ds with
  | nil => intro si h; simp at h
  | cons f rest ih =>
    intro si hmem
    rcases List.mem_cons.mp hmem with rfl | hmem
    · by_cases hf : (e.relationship == ROOT)
      · exact ⟨si, by
          rw [edgeStmts, if_pos hf]
          exact List.mem_cons_of_mem _ (List.mem_cons_self _ _)⟩
      · exact ⟨e.governorTokenIndex, by
          rw [edgeStmts, if_neg hf]
          exact List.mem_cons_self _ _⟩
    · by_cases hf : (f.relationship == ROOT)
      · obtain ⟨g, hg⟩ := ih (si - 1) hmem
        exact ⟨g, by
          rw [edgeStmts, if_pos hf]
          exact List.mem_cons_of_mem _ (List.mem_cons_of_mem _ hg)⟩
      · obtain ⟨g, hg⟩ := ih si hmem
        exact ⟨g, by
          rw [edgeStmts, if_neg hf]
          exact List.mem_cons_of_mem _ hg⟩

lemma no_node_edgeStmts : ∀ (ds : List DependencyEdge),
    (∀ f ∈ ds, f.relationship ≠ ROOT) →
    ∀ (si : Int) (idx : Int) (lbl : String), Stmt.node idx lbl ∉ edgeStmts si ds := by
  intro ds
  induction ds with
  | nil => intro _ si idx lbl hc; simp [edgeStmts] at hc
  | cons f rest ih =>
    intro h si idx lbl hc
    have hf : (f.relationship == ROOT) = false := by
      simpa using h f (List.mem_cons_self _ _)
    rw [edgeStmts, if_neg (by simp [hf])] at hc
    rcases List.mem_cons.mp hc with hc | hc
    · exact Stmt.noConfusion hc
    · exact ih (fun q hq => h q (List.mem_cons_of_mem _ hq)) si idx lbl hc

/-- C8, amended: for a document whose containers and items are present,
`deps_to_graph` raises no error whatever index values the edges carry.  An
edge whose governor (non-root) or dependent index is at least the token count
yields an edge statement referencing that index while no node declaration
with that index is emitted.  A negative non-root governor likewise propagates
unchanged into its edge statement and, in a document with no root edge,
references an index with no node declaration; when a root edge is present its
synthetic node may occupy exactly that negative index (see the
counterexample), so a dangling reference is not guaranteed there. -/
theorem out_of_range_edge_total (adm : AnnotatedDocument) (a : Attributes)
    (tc : TokenAttribute) (dc : DependencyAttribute)
    (tokenItems : List Token) (depItems : List DependencyEdge) (b : Bool)
    (h1 : adm.attributes = some a) (h2 : a.token = some tc) (h3 : tc.items = some tokenItems)
    (h4 : a.dependency = some dc) (h5 : dc.items = some depItems) :
    (∃ s, deps_to_graph adm b = some s) ∧
    ∃ stmts, graphStmts adm b = some stmts ∧
      (∀ e ∈ depItems, e.relationship ≠ ROOT →
          (tokenItems.length : Int) ≤ e.governorTokenIndex →
          Stmt.edge e.governorTokenIndex e.dependencyTokenIndex e.relationship ∈ stmts ∧
          ∀ lbl, Stmt.node e.governorTokenIndex lbl ∉ stmts) ∧
      (∀ e ∈ depItems, (tokenItems.length : Int) ≤ e.dependencyTokenIndex →
          (∃ g, Stmt.edge g e.dependencyTokenIndex e.relationship ∈ stmts) ∧
          ∀ lbl, Stmt.node e.dependencyTokenIndex lbl ∉ stmts) ∧
      ((∀ f ∈ depItems, f.relationship ≠ ROOT) →
          ∀ e ∈ depItems, e.governorTokenIndex < 0 →
          Stmt.edge e.governorTokenIndex e.dependencyTokenIndex e.relationship ∈ stmts ∧
          ∀ lbl, Stmt.node e.governorTokenIndex lbl ∉ stmts) := by
  have htok : tokens adm = some (sortTokens tokenItems) := by simp [tokens, h1, h2, h3]
  have hdep : dependencies adm = some (sortDependencies depItems) := by
    simp [dependencies, h1, h4, h5]
  have hg : graphStmts adm b
      = some (tokenStmts b 0 (sortTokens tokenItems)
          ++ edgeStmts (-1) (sortDependencies depItems)) := by
    simp [graphStmts, htok, hdep]
  have hs : deps_to_graph adm b = some ("digraph G\x7b" ++ STYLE
      ++ tokenNodes b 0 (sortTokens tokenItems)
      ++ edgeLines (-1) (sortDependencies depItems) ++ "\x7d\n") := by
    simp [deps_to_graph, htok, hdep]
  have hlen : (sortTokens tokenItems).length = tokenItems.length :=
    (List.perm_insertionSort tokenLE tokenItems).length_eq
  have hnode_big : ∀ idx : Int, (tokenItems.length : Int) ≤ idx → ∀ lbl,
      Stmt.node idx lbl ∉ tokenStmts b 0 (sortTokens tokenItems)
        ++ edgeStmts (-1) (sortDependencies depItems) := by
    intro idx hidx lbl hmem
    rcases List.mem_append.mp hmem with h | h
    · have hb := node_indices_tokenStmts b (sortTokens tokenItems) 0 idx lbl h
      rw [hlen] at hb
      omega
    · have hb := node_indices_edgeStmts (sortDependencies depItems) (-1) idx lbl h
      omega
  refine ⟨⟨_, hs⟩, _, hg, ?_, ?_, ?_⟩
  · intro e he hrel hgov
    have he' : e ∈ sortDependencies depItems :=
      ((List.perm_insertionSort depLE depItems).mem_iff).mpr he
    exact ⟨List.mem_append_right _ (edge_mem_edgeStmts e hrel _ (-1) he'),
      hnode_big e.governorTokenIndex hgov⟩
  · intro e he hdep'
    have he' : e ∈ sortDependencies depItems :=
      ((List.perm_insertionSort depLE depItems).mem_iff).mpr he
    obtain ⟨g, hgmem⟩ := edge_dep_mem_edgeStmts e (sortDependencies depItems) (-1) he'
    exact ⟨⟨g, List.mem_append_right _ hgmem⟩,
      hnode_big e.dependencyTokenIndex hdep'⟩
  · intro hall e he hgovneg
    have he' : e ∈ sortDependencies depItems :=
      ((List.perm_insertionSort depLE depItems).mem_iff).mpr he
    have hall' : ∀ f ∈ sortDependencies depItems, f.relationship ≠ ROOT := fun f hf =>
      hall f (((List.perm_insertionSort depLE depItems).mem_iff).mp hf)
    refine ⟨List.mem_append_right _ (edge_mem_edgeStmts e (hall e he) _ (-1) he'), ?_⟩
    intro lbl hmem
    rcases List.mem_append.mp hmem with h | h
    · have hb := node_indices_tokenStmts b (sortTokens tokenItems) 0 _ lbl h
      omega
    · exact no_node_edgeStmts (sortDependencies depItems) hall' (-1) _ lbl h

/-- Witness for `out_of_range_edge_total`: a one-token document whose only
edge has governor index 5 and dependent index 9, both out of range. -/
theorem out_of_range_edge_total_witness :
    (∃ s, deps_to_graph
        ⟨some ⟨some ⟨some [⟨"a", some 0, some 1⟩]⟩, some ⟨some [⟨"amod", 5, 9⟩]⟩⟩⟩
        false = some s) ∧
    ∃ stmts, graphStmts
        ⟨some ⟨some ⟨some [⟨"a", some 0, some 1⟩]⟩, some ⟨some [⟨"amod", 5, 9⟩]⟩⟩⟩
        false = some stmts ∧
      Stmt.edge 5 9 "amod" ∈ stmts ∧
      (∀ lbl, Stmt.node 5 lbl ∉ stmts) ∧
      (∃ g, Stmt.edge g 9 "amod" ∈ stmts) ∧
      ∀ lbl, Stmt.node 9 lbl ∉ stmts := by
  obtain ⟨hs, stmts, hg, hc1, hc2, hc3⟩ :=
    out_of_range_edge_total
      ⟨some ⟨some ⟨some [⟨"a", some 0, some 1⟩]⟩, some ⟨some [⟨"amod", 5, 9⟩]⟩⟩⟩
      ⟨some ⟨some [⟨"a", some 0, some 1⟩]⟩, some ⟨some [⟨"amod", 5, 9⟩]⟩⟩
      ⟨some [⟨"a", some 0, some 1⟩]⟩ ⟨some [⟨"amod", 5, 9⟩]⟩
      [⟨"a", some 0, some 1⟩] [⟨"amod", 5, 9⟩] false rfl rfl rfl rfl rfl
  obtain ⟨hm1, hn1⟩ := hc1 ⟨"amod", 5, 9⟩ (by decide) (by decide) (by decide)
  obtain ⟨hm2, hn2⟩ := hc2 ⟨"amod", 5, 9⟩ (by decide) (by decide)
  exact ⟨hs, stmts, hg, hm1, hn1, hm2, hn2⟩

/-- Counterexample to C8 as stated: the claim promises a dangling node
reference for every out-of-range index, including a negative non-root
governor.  But in a document with one token, a root edge, and a non-root
edge with governor -1, every edge statement's endpoints carry a node
declaration: the non-root governor -1 happens to reference the synthetic
sentence-root node S1 declared at index -1. -/
theorem out_of_range_edge_counterexample :
    graphStmts ⟨some ⟨some ⟨some [⟨"a", some 0, some 1⟩]⟩,
        some ⟨some [⟨"root", -1, 0⟩, ⟨"nmod", -1, 0⟩]⟩⟩⟩ false
      = some [Stmt.node 0 "a", Stmt.node (-1) "S1",
          Stmt.edge (-1) 0 "root", Stmt.edge (-1) 0 "nmod"] ∧
    (∃ e ∈ [(⟨"root", -1, 0⟩ : DependencyEdge), ⟨"nmod", -1, 0⟩],
        e.relationship ≠ ROOT ∧ e.governorTokenIndex < 0) ∧
    ¬ danglingRef [Stmt.node 0 "a", Stmt.node (-1) "S1",
        Stmt.edge (-1) 0 "root", Stmt.edge (-1) 0 "nmod"] := by
  exact ⟨by decide, by decide, by decide⟩

/-! ### The in-place mutation of the dependency items -/

lemma itemsAfter_getElem? (ds : List DependencyEdge) (i : Nat) :
    (itemsAfter ds)[i]? = (ds[i]?).map (fun e =>
      match findAssign (rootAssignments (-1) (sortTagged ds)) i with
      | some g => { e with governorTokenIndex := g }
      | none => e) := by
  unfold itemsAfter
  rw [List.getElem?_map, List.getElem?_enum]
  cases ds[i]? <;> rfl

lemma rootAssignments_src : ∀ (l : List (Nat × DependencyEdge)) (si : Int) (i : Nat) (g : Int),
    (i, g) ∈ rootAssignments si l →
    g ≤ si ∧ ∃ e, (i, e) ∈ l ∧ e.relationship = ROOT := by
  intro l
  induction l with
  | nil => intro si i g h; simp [rootAssignments] at h
  | cons p rest ih =>
    intro si i g h
    obtain ⟨j, e⟩ := p
    by_cases hr : e.relationship == ROOT
    · rw [rootAssignments, if_pos hr] at h
      rcases List.mem_cons.mp h with h | h
      · rw [Prod.mk.injEq] at h
        obtain ⟨rfl, rfl⟩ := h
        exact ⟨le_refl _, e, List.mem_cons_self _ _, beq_iff_eq.mp hr⟩
      · obtain ⟨hle, e', hm, hrel⟩ := ih (si - 1) i g h
        exact ⟨by omega, e', List.mem_cons_of_mem _ hm, hrel⟩
    · rw [rootAssignments, if_neg hr] at h
      obtain ⟨hle, e', hm, hrel⟩ := ih si i g h
      exact ⟨hle, e', List.mem_cons_of_mem _ hm, hrel⟩

lemma rootAssignments_exists : ∀ (l : List (Nat × DependencyEdge)) (si : Int) (i : Nat)
    (e : DependencyEdge), (i, e) ∈ l → e.relationship = ROOT →
    ∃ g, (i, g) ∈ rootAssignments si l := by
  intro l
  induction l with
  | nil => intro si i e h _; simp at h
  | cons p rest ih =>
    intro si i e hm hrel
    obtain ⟨j, f⟩ := p
    rcases List.mem_cons.mp hm with h | h
    · rw [Prod.mk.injEq] at h
      obtain ⟨rfl, rfl⟩ := h
      have hb : (e.relationship == ROOT) = true := beq_iff_eq.mpr hrel
      exact ⟨si, by rw [rootAssignments, if_pos hb]; exact List.mem_cons_self _ _⟩
    · by_cases hr : f.relationship == ROOT
      · obtain ⟨g, hg⟩ := ih (si - 1) i e h hrel
        exact ⟨g, by rw [rootAssignments, if_pos hr]; exact List.mem_cons_of_mem _ hg⟩
      · obtain ⟨g, hg⟩ := ih si i e h hrel
        exact ⟨g, by rw [rootAssignments, if_neg hr]; exact hg⟩

lemma findAssign_none : ∀ (assigns : List (Nat × Int)) (i : Nat),
    (∀ g, (i, g) ∉ assigns) → findAssign assigns i = none := by
  intro assigns
  induction assigns with
  | nil => intro i _; rfl
  | cons p rest ih =>
    intro i h
    obtain ⟨j, g⟩ := p
    by_cases hj : j = i
    · subst hj
      exact absurd (List.mem_cons_self _ _) (h g)
    · rw [findAssign, if_neg hj]
      exact ih i fun g' hg' => h g' (List.mem_cons_of_mem _ hg')

lemma findAssign_some_of_mem : ∀ (assigns : List (Nat × Int)) (i : Nat) (g : Int),
    (i, g) ∈ assigns → ∃ g', findAssign assigns i = some g' ∧ (i, g') ∈ assigns := by
  intro assigns
  induction assigns with
  | nil => intro i g h; simp at h
  | cons p rest ih =>
    intro i g hm
    obtain ⟨j, g0⟩ := p
    by_cases hj : j = i
    · subst hj
      exact ⟨g0, by rw [findAssign, if_pos rfl], List.mem_cons_self _ _⟩
    · rcases List.mem_cons.mp hm with h | h
      · rw [Prod.mk.injEq] at h
        exact absurd h.1.symm hj
      · obtain ⟨g', hf, hm'⟩ := ih i g h
        exact ⟨g', by rw [findAssign, if_neg hj]; exact hf, List.mem_cons_of_mem _ hm'⟩

lemma rootAssignments_nil : ∀ (l : List (Nat × DependencyEdge)) (si : Int),
    (∀ p ∈ l, p.2.relationship ≠ ROOT) → rootAssignments si l = [] := by
  intro l
  induction l with
  | nil => intro si _; rfl
  | cons p rest ih =>
    intro si h
    obtain ⟨j, e⟩ := p
    have hne := h (j, e) (List.mem_cons_self _ _)
    rw [rootAssignments, if_neg (by simpa using hne)]
    exact ih si fun q hq => h q (List.mem_cons_of_mem _ hq)

/-- C4, amended: `deps_to_graph` does not leave the document unchanged in
general.  Every dependency item whose relationship is not the root marker is
left untouched (and so is the whole list when there is no root edge), but
each root edge's `governorTokenIndex` is overwritten in place with the
negative synthetic sentence index assigned to it during emission. -/
theorem mutation_frame (ds : List DependencyEdge) :
    (itemsAfter ds).length = ds.length ∧
    (∀ (i : Nat) (e : DependencyEdge), ds[i]? = some e → e.relationship ≠ ROOT →
        (itemsAfter ds)[i]? = some e) ∧
    (∀ (i : Nat) (e : DependencyEdge), ds[i]? = some e → e.relationship = ROOT →
        ∃ g, g < 0 ∧ (itemsAfter ds)[i]? = some { e with governorTokenIndex := g }) ∧
    ((∀ e ∈ ds, e.relationship ≠ ROOT) → itemsAfter ds = ds) := by
  refine ⟨by simp [itemsAfter], ?_, ?_, ?_⟩
  · intro i e hi hrel
    have hnone : findAssign (rootAssignments (-1) (sortTagged ds)) i = none := by
      apply findAssign_none
      intro g hg
      obtain ⟨-, e', hmem', hrel'⟩ := rootAssignments_src _ _ _ _ hg
      have hen : (i, e') ∈ ds.enum :=
        ((List.perm_insertionSort tagLE ds.enum).mem_iff).mp hmem'
      have he' : ds[i]? = some e' := List.mk_mem_enum_iff_getElem?.mp hen
      rw [hi] at he'
      injection he' with he'
      exact hrel (he' ▸ hrel')
    rw [itemsAfter_getElem?, hi]
    simp [hnone]
  · intro i e hi hrel
    have hmem : (i, e) ∈ sortTagged ds :=
      ((List.perm_insertionSort tagLE ds.enum).mem_iff).mpr
        (List.mk_mem_enum_iff_getElem?.mpr hi)
    obtain ⟨g, hg⟩ := rootAssignments_exists _ (-1) i e hmem hrel
    obtain ⟨g', hfind, hmem'⟩ := findAssign_some_of_mem _ i g hg
    obtain ⟨hle, -⟩ := rootAssignments_src _ _ _ _ hmem'
    refine ⟨g', by omega, ?_⟩
    rw [itemsAfter_getElem?, hi]
    simp [hfind]
  · intro h
    have hnil : rootAssignments (-1) (sortTagged ds) = [] := by
      apply rootAssignments_nil
      intro p hp
      obtain ⟨i, e⟩ := p
      have h1 : (i, e) ∈ ds.enum :=
        ((List.perm_insertionSort tagLE ds.enum).mem_iff).mp hp
      have h2 : ds[i]? = some e := List.mk_mem_enum_iff_getElem?.mp h1
      exact h e (List.getElem?_mem h2)
    unfold itemsAfter
    rw [hnil]
    simp [findAssign, List.enum_map_snd]

/-- Witness for `mutation_frame`: a document whose single edge is not a root
edge is left unchanged. -/
theorem mutation_frame_witness :
    itemsAfter [⟨"nsubj", 3, 0⟩] = [⟨"nsubj", 3, 0⟩] :=
  (mutation_frame [⟨"nsubj", 3, 0⟩]).2.2.2 (by decide)

/-- Counterexample to C4 as stated: with two root edges (both entering with
governor -1, as emitted by the API for a two-sentence document), the call
overwrites the second root edge's `governorTokenIndex` with -2, so the
document's dependency items after the call differ from their values before
the call. -/
theorem mutation_counterexample :
    itemsAfter [⟨"root", -1, 0⟩, ⟨"root", -1, 2⟩] ≠ [⟨"root", -1, 0⟩, ⟨"root", -1, 2⟩] := by
  decide

end DepsToGraph
